import Mathlib

/- Verification of the nom parser combinator core against its
   specification.  The repository sources only expose the crate root
   (src/lib.rs): the module files (internal, bytes, branch, multi, bits,
   simple_errors, verbose_errors, nom, character, ...) are declared there
   but their bodies are not available, so the result model, the primitive
   parsers, the combinators and the bit engine are modelled from the
   specification; the documentation grammar of src/lib.rs (parens, factor,
   term, expr) is translated from that file. -/

namespace Nom

/-- Bytes are natural numbers; an input view is the list of remaining
bytes (the spec compares views by content, so a list is a faithful
model of a zero copy slice). -/
abbrev Input := List Nat

/-- Modelled from the spec: the needed indicator attached to Incomplete
(module internal is not under src/): either an indeterminate amount or a
minimal count of further elements. -/
inductive Needed where
  | Unknown : Needed
  | Size : Nat → Needed
  deriving DecidableEq, Repr

/-- Modelled from the spec: one verbose error frame (module
verbose_errors is not under src/): the discriminant of the failing
parser and the input position, recorded as the remaining input, at the
failure. -/
structure Frame where
  kind : Nat
  pos : Input
  deriving DecidableEq, Repr

/-- A verbose error chain, ordered innermost-first, outermost-last. -/
abbrev Chain := List Frame

/-- Modelled from the spec: the three way parse outcome (module internal
is not under src/), generic over the input type, the error payload and
the produced value. -/
inductive IResult (ι ε α : Type) where
  | Done : ι → α → IResult ι ε α
  | Error : ε → IResult ι ε α
  | Incomplete : Needed → IResult ι ε α
  deriving DecidableEq, Repr

variable {ι ε ε2 α β σ : Type}

/-- Map a function over the produced value of an outcome. -/
def IResult.map (f : α → β) : IResult ι ε α → IResult ι ε β
  | .Done r v => .Done r (f v)
  | .Error e => .Error e
  | .Incomplete n => .Incomplete n

/-- Tests for the Error variant of an outcome. -/
def isErr : IResult ι ε α → Bool
  | .Error _ => true
  | _ => false

/-- Modelled from the spec: an error model strategy (the simple_errors
and verbose_errors modules are not under src/): how a primitive creates
a fresh error from its discriminant and position, and how a combinator
records its own frame on an error it forwards. -/
structure ErrM (ε : Type) where
  fresh : Nat → Input → ε
  push : Nat → Input → ε → ε

/-- Discriminant of tag failures. -/
def kTag : Nat := 0

/-- Discriminant of alternation failures. -/
def kAlt : Nat := 1

/-- Discriminant of many1 failures. -/
def kMany1 : Nat := 2

/-- Discriminant of conversion failures inside map_res. -/
def kMapRes : Nat := 3

/-- Modelled from the spec: simple mode reports a single discriminant per
failure and never accumulates. -/
def simpleE : ErrM Nat := ⟨fun k _ => k, fun k _ _ => k⟩

/-- Modelled from the spec: verbose mode starts a chain at the failing
primitive, and every combinator that forwards a child error appends its
own frame, keeping the chain innermost-first and outermost-last. -/
def verboseE : ErrM Chain := ⟨fun k i => [⟨k, i⟩], fun k i c => c ++ [⟨k, i⟩]⟩

/-- Modelled from the spec: the tag literal matcher (module bytes is not
under src/): Done when the input starts with the literal, Incomplete
with the missing length when the input is a proper prefix of the
literal, Error otherwise. -/
def tag (E : ErrM ε) (lit : Input) (i : Input) : IResult Input ε Input :=
  if lit.isPrefixOf i then .Done (i.drop lit.length) lit
  else if i.isPrefixOf lit then .Incomplete (.Size (lit.length - i.length))
  else .Error (E.fresh kTag i)

/-- Modelled from the spec: the fixed length extractor (module bytes is
not under src/): Done when at least n elements are available, else
Incomplete needing the difference. -/
def take (n : Nat) (i : Input) : IResult Input ε Input :=
  if n ≤ i.length then .Done (i.drop n) (i.take n)
  else .Incomplete (.Size (n - i.length))

/-- ASCII digit test, as used by the digit class matcher. -/
def isDigit (b : Nat) : Bool := 48 ≤ b && b ≤ 57

/-- Modelled from the spec: the greedy digit class matcher (module nom is
not under src/): consumes the maximal matching prefix; when the entire
input matches, the match could extend, so it reports Incomplete rather
than Done. -/
def digit (i : Input) : IResult Input ε Input :=
  if (i.dropWhile isDigit).isEmpty then .Incomplete .Unknown
  else .Done (i.dropWhile isDigit) (i.takeWhile isDigit)

/-- Handling of the second alternative once the first has failed with
error e: its Done and Incomplete pass through, and when it fails too the
alternation reports the first child's error under its own frame. -/
def altK (E : ErrM ε) (i : Input) (e : ε) : IResult Input ε σ → IResult Input ε σ
  | .Done r v => .Done r v
  | .Incomplete n => .Incomplete n
  | .Error _ => .Error (E.push kAlt i e)

/-- Modelled from the spec: alternation (module branch is not under
src/): children are tried in order on the same input; the first Done
wins; Incomplete is returned immediately; only when all children fail is
Error returned, retaining the first child's error with the combinator's
own frame recorded. -/
def alt (E : ErrM ε) (p1 p2 : Input → IResult Input ε σ) (i : Input) :
    IResult Input ε σ :=
  match p1 i with
  | .Done r v => .Done r v
  | .Incomplete n => .Incomplete n
  | .Error e => altK E i e (p2 i)

/-- Modelled from the spec: the optional combinator (module macros is not
under src/): Done is wrapped as present, Error becomes Done with absent
output and the original input, Incomplete propagates. -/
def opt (p : Input → IResult Input ε σ) (i : Input) :
    IResult Input ε (Option σ) :=
  match p i with
  | .Done r v => .Done r (some v)
  | .Error _ => .Done i none
  | .Incomplete n => .Incomplete n

/-- Pairing of a first output with the second child's result: the second
child's Error and Incomplete pass through unchanged. -/
def seqK (v : α) : IResult Input ε β → IResult Input ε (α × β)
  | .Done r2 w => .Done r2 (v, w)
  | .Error e => .Error e
  | .Incomplete n => .Incomplete n

/-- Modelled from the spec: sequencing (module sequence is not under
src/): the first child's remainder feeds the second child; the first non
Done result short circuits and is returned unchanged. -/
def seqP (p : Input → IResult Input ε α) (q : Input → IResult Input ε β)
    (i : Input) : IResult Input ε (α × β) :=
  match p i with
  | .Done r v => seqK v (q r)
  | .Error e => .Error e
  | .Incomplete n => .Incomplete n

/-- Modelled from the spec: preceded keeps only the second child's
output. -/
def precededC (p : Input → IResult Input ε α) (q : Input → IResult Input ε β)
    (i : Input) : IResult Input ε β :=
  (seqP p q i).map Prod.snd

/-- Modelled from the spec: delimited consumes and discards the
delimiters and keeps the inner output. -/
def delimitedC (o : Input → IResult Input ε α) (p : Input → IResult Input ε β)
    (c : Input → IResult Input ε σ) (i : Input) : IResult Input ε β :=
  (seqP o (seqP p c) i).map (fun x => x.2.1)

/-- Conversion step of map_res: a successful conversion gives Done at
the child's remainder, a failed one gives Error with the map_res
discriminant at the current position. -/
def mapResK (E : ErrM ε) (i r : Input) (f : α → Option β) (v : α) :
    IResult Input ε β :=
  match f v with
  | some w => .Done r w
  | none => .Error (E.fresh kMapRes i)

/-- Modelled from the spec: map_res (module macros is not under src/):
applies a fallible conversion to a Done output and folds a conversion
failure into Error with its own discriminant. -/
def mapRes (E : ErrM ε) (p : Input → IResult Input ε α) (f : α → Option β)
    (i : Input) : IResult Input ε β :=
  match p i with
  | .Done r v => mapResK E i r f v
  | .Error e => .Error e
  | .Incomplete n => .Incomplete n

/-- Prepending one collected output to the result of the rest of a
repetition loop; Error and Incomplete of the rest pass through. -/
def many0K (v : σ) : IResult Input ε (List σ) → IResult Input ε (List σ)
  | .Done r2 vs => .Done r2 (v :: vs)
  | .Error e => .Error e
  | .Incomplete n => .Incomplete n

/-- Modelled from the spec: the loop of many0, written with structural
fuel; an iteration whose child succeeds without consuming anything is
detected as lack of forward progress and stops the loop, a child Error
stops the loop, and a child Incomplete propagates. -/
def many0Go (p : Input → IResult Input ε σ) : Nat → Input → IResult Input ε (List σ)
  | 0, i => .Done i []
  | f + 1, i =>
    match p i with
    | .Done r v =>
      if r.length < i.length then many0K v (many0Go p f r)
      else .Done i []
    | .Error _ => .Done i []
    | .Incomplete n => .Incomplete n

/-- Modelled from the spec: many0 (module multi is not under src/):
repeated application of the child collecting the outputs; the fuel
bound of one more than the input length is never reached because each
continuing iteration strictly consumes. -/
def many0 (p : Input → IResult Input ε σ) (i : Input) : IResult Input ε (List σ) :=
  many0Go p (i.length + 1) i

/-- Modelled from the spec: many1 (module multi is not under src/):
requires at least one match and fails with its own frame over the
child's error when the first attempt fails. -/
def many1 (E : ErrM ε) (p : Input → IResult Input ε σ) (i : Input) :
    IResult Input ε (List σ) :=
  match p i with
  | .Error e => .Error (E.push kMany1 i e)
  | .Incomplete n => .Incomplete n
  | .Done r v => many0K v (many0 p r)

/-- The eight bits of a byte, most significant first. -/
def byteBits (b : Nat) : List Nat :=
  (List.range 8).map fun k => b / 2 ^ (7 - k) % 2

/-- The bit stream of a byte input, most significant bit of each byte
first. -/
def streamBits : Input → List Nat
  | [] => []
  | b :: t => byteBits b ++ streamBits t

/-- The unsigned integer whose most significant first binary digits are
the given bits. -/
def bitsVal (l : List Nat) : Nat :=
  l.foldl (fun a b => 2 * a + b) 0

/-- Modelled from the spec: the cursor of the bit level engine, the
remaining bytes together with the bit offset inside the first one. -/
abbrev BitInput := Input × Nat

/-- Modelled from the spec: take_bits (module bits is not under src/):
extracts the next n bits of the stream, most significant bit first, as
an unsigned integer, advancing the byte and bit offsets across byte
boundaries; when fewer than n bits remain it reports Incomplete. -/
def takeBits (n : Nat) : BitInput → IResult BitInput ε Nat
  | (bs, off) =>
    if bs.length * 8 - off < n then
      .Incomplete (.Size (n - (bs.length * 8 - off)))
    else
      .Done (bs.drop ((off + n) / 8), (off + n) % 8)
        (bitsVal (((streamBits bs).drop off).take n))

/-- Decimal conversion of a digit string, the composition of the two
map_res conversions of the documentation grammar (utf8 decoding, which
cannot fail on digits, then integer parsing, which fails exactly on the
empty string). -/
def bytesToInt (m : Input) : Option Int :=
  if m.isEmpty then none
  else if m.all isDigit then
    some (m.foldl (fun a b => 10 * a + ((b : Int) - 48)) 0)
  else none

/-- Translated from src/lib.rs: the i64_digit rule, map_res of the digit
class matcher through decimal conversion. -/
def i64digit (i : Input) : IResult Input Chain Int :=
  mapRes verboseE (fun j => digit j) bytesToInt i

/-- Translated from src/lib.rs: the chain idiom of term and expr, an
initial parser followed by many0 of operator parsers, each tap updating
the accumulator in order. -/
def chainFold (p : Input → IResult Input Chain Int)
    (op : Input → IResult Input Chain (Int → Int)) (i : Input) :
    IResult Input Chain Int :=
  match p i with
  | .Done r acc =>
    match many0 op r with
    | .Done r2 fs => .Done r2 (fs.foldl (fun a g => g a) acc)
    | .Error e => .Error e
    | .Incomplete n => .Incomplete n
  | .Error e => .Error e
  | .Incomplete n => .Incomplete n

/-- Translated from src/lib.rs: the documented arithmetic grammar (expr,
term, factor, parens), with fuel counting the nesting depth of
parentheses; 40, 41, 42, 43, 45 and 47 are the ASCII codes of the
parenthesis, star, plus, minus and slash characters, and division is the
truncating integer division of the source language. -/
def exprF : Nat → Input → IResult Input Chain Int
  | 0, _ => .Incomplete .Unknown
  | f + 1, i =>
    let factorP : Input → IResult Input Chain Int := fun k =>
      alt verboseE i64digit
        (fun m => delimitedC (tag verboseE [40]) (exprF f) (tag verboseE [41]) m) k
    let termP : Input → IResult Input Chain Int := fun k =>
      chainFold factorP
        (fun m => alt verboseE
          (fun m2 => (precededC (tag verboseE [42]) factorP m2).map fun n a => a * n)
          (fun m2 => (precededC (tag verboseE [47]) factorP m2).map fun n a => Int.tdiv a n) m) k
    chainFold termP
      (fun m => alt verboseE
        (fun m2 => (precededC (tag verboseE [43]) termP m2).map fun n a => a + n)
        (fun m2 => (precededC (tag verboseE [45]) termP m2).map fun n a => a - n) m) i

/-- A universal output value for the combinator vocabulary: byte slices,
numbers, pairs, collections and optionals. -/
inductive Val where
  | vb : Input → Val
  | vn : Int → Val
  | vp : Val → Val → Val
  | vl : List Val → Val
  | vo : Option Val → Val

/-- Modelled from the spec: the abstract syntax of parsers built from the
core combinator vocabulary, used to quantify over every parser of the
library when comparing the two error modes. -/
inductive P where
  | ptag : Input → P
  | ptake : Nat → P
  | pdigit : P
  | pnum : P
  | palt : P → P → P
  | pseq : P → P → P
  | pmany0 : P → P
  | pmany1 : P → P
  | popt : P → P

/-- The interpreter of the combinator vocabulary, generic over the error
model strategy: each syntax node runs the corresponding modelled
combinator. -/
def runP (E : ErrM ε) : P → Input → IResult Input ε Val
  | .ptag l, i => (tag E l i).map .vb
  | .ptake n, i => (take n i).map .vb
  | .pdigit, i => (digit i).map .vb
  | .pnum, i => (mapRes E (fun j => digit j) bytesToInt i).map .vn
  | .palt a b, i => alt E (fun j => runP E a j) (fun j => runP E b j) i
  | .pseq a b, i =>
    (seqP (fun j => runP E a j) (fun j => runP E b j) i).map fun x => .vp x.1 x.2
  | .pmany0 a, i => (many0 (fun j => runP E a j) i).map .vl
  | .pmany1 a, i => (many1 E (fun j => runP E a j) i).map .vl
  | .popt a, i => (opt (fun j => runP E a j) i).map .vo

/-- Two outcomes over different error payload types agree when they have
the same variant and, outside Error, the same remainder, value and
needed payloads. -/
def rel2 : IResult ι ε α → IResult ι ε2 α → Prop
  | .Done r v, .Done r2 v2 => r = r2 ∧ v = v2
  | .Incomplete n, .Incomplete n2 => n = n2
  | .Error _, .Error _ => True
  | _, _ => False

/-- A literal is always a prefix of itself followed by anything. -/
theorem isPrefixOf_append (l t : Input) : l.isPrefixOf (l ++ t) = true := by
  simp

/-- C1: if the first alternative returns Incomplete on an input then alt
returns that same Incomplete for every possible second alternative (so
the second alternative cannot influence the result, even when it would
return Done on the same input). -/
theorem claim1_alt_incomplete (p1 : Input → IResult Input Chain σ) (i : Input)
    (n : Needed) (h : p1 i = .Incomplete n) :
    ∀ p2 : Input → IResult Input Chain σ, alt verboseE p1 p2 i = .Incomplete n := by
  intro p2
  unfold alt
  rw [h]

/-- Witness for C1: take 2 on a one byte input is Incomplete, and alt of
it with a parser that returns Done on every input is that same
Incomplete. -/
theorem claim1_alt_incomplete_witness :
    alt verboseE (take 2) (fun j => .Done j []) [5] =
      (.Incomplete (.Size 1) : IResult Input Chain Input) :=
  claim1_alt_incomplete (take 2) [5] (.Size 1) (by decide) (fun j => .Done j [])

/-- C2 counterexample: with literal "ab" and the empty input, which is
neither the literal followed by trailing bytes nor a strict non-empty
prefix of the literal, tag returns Incomplete and not the Error the
claim requires for any other input. -/
theorem claim2_tag_counterexample :
    tag verboseE [97, 98] ([] : Input) = .Incomplete (.Size 2) ∧
    isErr (tag verboseE [97, 98] ([] : Input)) = false := by
  constructor
  · rfl
  · rfl

/-- C2 (amended): tag on the literal followed by arbitrary trailing
bytes is Done with exactly those trailing bytes as remainder and the
literal as output; on any strict prefix of the literal, the empty input
included, it is Incomplete needing exactly the missing length; on any
input that neither starts with the literal nor is a prefix of the
literal it is Error. -/
theorem claim2_tag_amended (L : Input) :
    (∀ T, tag verboseE L (L ++ T) = .Done T L) ∧
    (∀ P, P <+: L → P.length < L.length →
      tag verboseE L P = .Incomplete (.Size (L.length - P.length))) ∧
    (∀ i, ¬ L <+: i → ¬ i <+: L → isErr (tag verboseE L i) = true) := by
  refine ⟨fun T => ?_, fun P h1 h2 => ?_, fun i h1 h2 => ?_⟩
  · simp [tag, List.drop_left]
  · have hLP : ¬ L <+: P := fun hc => absurd hc.length_le (by omega)
    simp [tag, hLP, h1]
  · simp [tag, h1, h2, isErr]

/-- Witness for C2 (amended): each clause applied to concrete inputs
with literal "ab". -/
theorem claim2_tag_amended_witness :
    tag verboseE [97, 98] ([97, 98] ++ [99]) = .Done [99] [97, 98] ∧
    tag verboseE [97, 98] [97] = .Incomplete (.Size 1) ∧
    isErr (tag verboseE [97, 98] [98]) = true :=
  ⟨(claim2_tag_amended [97, 98]).1 [99],
   (claim2_tag_amended [97, 98]).2.1 [97] ⟨[98], rfl⟩ (by decide),
   (claim2_tag_amended [97, 98]).2.2 [98]
     (by rintro ⟨t, ht⟩; simp at ht)
     (by rintro ⟨t, ht⟩; simp at ht)⟩

/-- C5: take n is Done consuming exactly n elements when at least n are
available, and Incomplete needing exactly the difference otherwise. -/
theorem claim5_take (n : Nat) (i : Input) :
    (n ≤ i.length → ∃ pre suf, i = pre ++ suf ∧ pre.length = n ∧
      (take n i : IResult Input Chain Input) = .Done suf pre) ∧
    (i.length < n →
      (take n i : IResult Input Chain Input) = .Incomplete (.Size (n - i.length))) := by
  constructor
  · intro h
    refine ⟨i.take n, i.drop n, (List.take_append_drop n i).symm, ?_, ?_⟩
    · simpa [List.length_take] using Nat.min_eq_left h
    · simp [take, h]
  · intro h
    simp [take, Nat.not_le.mpr h]

/-- Witness for C5: take 2 on a three byte input, and the concrete
scenario of the claim, take 3 on a two byte input. -/
theorem claim5_take_witness :
    (∃ pre suf, ([7, 8, 9] : Input) = pre ++ suf ∧ pre.length = 2 ∧
      (take 2 [7, 8, 9] : IResult Input Chain Input) = .Done suf pre) ∧
    (take 3 [7, 8] : IResult Input Chain Input) = .Incomplete (.Size 1) :=
  ⟨(claim5_take 2 [7, 8, 9]).1 (by decide), (claim5_take 3 [7, 8]).2 (by decide)⟩

/-- C6: the optional combinator turns a child Error into Done with
absent output and the original input unchanged, wraps a child Done
output as present, and propagates a child Incomplete. -/
theorem claim6_opt (p : Input → IResult Input Chain σ) (i : Input) :
    (∀ e, p i = .Error e → opt p i = .Done i none) ∧
    (∀ r v, p i = .Done r v → opt p i = .Done r (some v)) ∧
    (∀ n, p i = .Incomplete n → opt p i = .Incomplete n) := by
  refine ⟨fun e h => ?_, fun r v h => ?_, fun n h => ?_⟩ <;> unfold opt <;> rw [h]

/-- Witness for C6: the claim's concrete scenario, opt of tag "x" on an
input not starting with "x", is Done with absent output and the
original input. -/
theorem claim6_opt_witness :
    opt (tag verboseE [120]) [97] =
      (.Done [97] none : IResult Input Chain (Option Input)) :=
  (claim6_opt (tag verboseE [120]) [97]).1 [⟨kTag, [97]⟩] (by decide)

/-- The many0 loop can never produce the Error variant: a failing child
simply stops the collection. -/
theorem many0Go_not_err (p : Input → IResult Input ε σ) :
    ∀ f i, isErr (many0Go p f i) = false := by
  intro f
  induction f with
  | zero => intro i; rfl
  | succ f ih =>
    intro i
    unfold many0Go
    cases hp : p i with
    | Done r v =>
      by_cases hl : r.length < i.length
      · simp only [hl, if_true]
        cases hm : many0Go p f r with
        | Done r2 vs => rfl
        | Error e =>
          have hne := ih r
          rw [hm] at hne
          exact absurd hne (by simp [isErr])
        | Incomplete n => rfl
      · simp only [hl, if_false]
        rfl
    | Error e => rfl
    | Incomplete n => rfl

/-- C3: many0 is a total function of its child and input (it is defined
by structural recursion with a progress guard); when the child succeeds
on the input while consuming nothing, many0 detects the lack of forward
progress and returns Done with an empty collection and the original
input as remainder; and many0 never returns the Error variant on any
input. -/
theorem claim3_many0 (p : Input → IResult Input Chain σ) (i : Input) :
    ((∃ v, p i = .Done i v) → many0 p i = .Done i []) ∧
    isErr (many0 p i) = false := by
  constructor
  · rintro ⟨v, hv⟩
    unfold many0 many0Go
    rw [hv]
    simp
  · exact many0Go_not_err p (i.length + 1) i

/-- Witness for C3: a child that always succeeds with zero width makes
many0 stop at once with an empty collection, and many0 of a failing tag
is not an Error. -/
theorem claim3_many0_witness :
    many0 (fun j => (.Done j 0 : IResult Input Chain Nat)) [7, 8] = .Done [7, 8] [] ∧
    isErr (many0 (tag verboseE [99]) [7, 8]) = false :=
  ⟨(claim3_many0 (fun j => .Done j 0) [7, 8]).1 ⟨0, rfl⟩,
   (claim3_many0 (tag verboseE [99]) [7, 8]).2⟩

/-- When every element of a list satisfies the predicate, dropWhile
removes everything. -/
theorem dropWhile_all (f : Nat → Bool) (i : Input) (h : ∀ b ∈ i, f b = true) :
    i.dropWhile f = [] := by
  induction i with
  | nil => rfl
  | cons a t ih =>
    have ha := h a (by simp)
    rw [List.dropWhile_cons_of_pos ha]
    exact ih fun b hb => h b (by simp [hb])

/-- Splitting a list at its first predicate failure: takeWhile keeps
exactly the matching prefix and dropWhile keeps the rest. -/
theorem takeWhile_split (f : Nat → Bool) (m : Input) (c : Nat) (r : Input)
    (hm : ∀ b ∈ m, f b = true) (hc : f c = false) :
    (m ++ c :: r).takeWhile f = m ∧ (m ++ c :: r).dropWhile f = c :: r := by
  induction m with
  | nil =>
    constructor
    · simp [List.takeWhile_cons, hc]
    · simp [List.dropWhile_cons, hc]
  | cons a t ih =>
    have ha := hm a (by simp)
    have iht := ih fun b hb => hm b (by simp [hb])
    constructor
    · rw [List.cons_append, List.takeWhile_cons_of_pos ha, iht.1]
    · rw [List.cons_append, List.dropWhile_cons_of_pos ha, iht.2]

/-- C4: on an input whose elements all match the digit class the greedy
class matcher returns Incomplete rather than Done; on an input where a
non matching element bounds the match it returns Done whose output is
the maximal matching prefix; concretely, the digit parser on "123abc"
returns Done with remainder "abc" and output "123". -/
theorem claim4_digit_class (i : Input) :
    ((∀ b ∈ i, isDigit b = true) →
      digit i = (.Incomplete .Unknown : IResult Input Chain Input)) ∧
    (∀ m c r, i = m ++ c :: r → (∀ b ∈ m, isDigit b = true) → isDigit c = false →
      digit i = (.Done (c :: r) m : IResult Input Chain Input)) ∧
    digit [49, 50, 51, 97, 98, 99] =
      (.Done [97, 98, 99] [49, 50, 51] : IResult Input Chain Input) := by
  refine ⟨fun h => ?_, fun m c r hi hm hc => ?_, by decide⟩
  · unfold digit
    rw [dropWhile_all isDigit i h]
    rfl
  · subst hi
    obtain ⟨h1, h2⟩ := takeWhile_split isDigit m c r hm hc
    unfold digit
    rw [h1, h2]
    rfl

/-- Witness for C4: an all digit input makes the class matcher report
Incomplete, and a bounded match splits at the first non digit. -/
theorem claim4_digit_class_witness :
    digit [49, 50] = (.Incomplete .Unknown : IResult Input Chain Input) ∧
    digit [49, 97] = (.Done [97] [49] : IResult Input Chain Input) :=
  ⟨(claim4_digit_class [49, 50]).1 (by decide),
   (claim4_digit_class [49, 97]).2.1 [49] 97 [] rfl (by decide) (by decide)⟩

/-- C8: in verbose mode the combinators that forward a child's Error
keep the child's whole chain in order and add at most one frame of their
own after it (keeping the trace innermost-first, outermost-last):
alternation that exhausts its children adds one frame over the first
child's chain, many1 whose first attempt fails adds one frame over the
child's chain, and sequencing forwards either child's Error completely
unchanged. -/
theorem claim8_verbose_chain (p1 p2 : Input → IResult Input Chain σ) (i : Input)
    (c : Chain) :
    (p1 i = .Error c → (∃ c2, p2 i = .Error c2) →
      alt verboseE p1 p2 i = .Error (c ++ [⟨kAlt, i⟩])) ∧
    (p1 i = .Error c → many1 verboseE p1 i = .Error (c ++ [⟨kMany1, i⟩])) ∧
    (p1 i = .Error c → seqP p1 p2 i = .Error c) ∧
    (∀ r v, p1 i = .Done r v → p2 r = .Error c → seqP p1 p2 i = .Error c) := by
  refine ⟨fun h1 h2 => ?_, fun h1 => ?_, fun h1 => ?_, fun r v h1 h2 => ?_⟩
  · obtain ⟨c2, hc2⟩ := h2
    unfold alt
    rw [h1, hc2]
    rfl
  · unfold many1
    rw [h1]
    rfl
  · unfold seqP
    rw [h1]
  · unfold seqP
    rw [h1]
    dsimp only
    rw [h2]
    rfl

/-- Witness for C8: two failing tags under alt produce the first tag's
frame followed by the alt frame, and many1 of a failing tag produces the
tag frame followed by the many1 frame. -/
theorem claim8_verbose_chain_witness :
    alt verboseE (tag verboseE [97]) (tag verboseE [99]) [98] =
      (.Error ([⟨kTag, [98]⟩] ++ [⟨kAlt, [98]⟩]) : IResult Input Chain Input) ∧
    many1 verboseE (tag verboseE [97]) [98] =
      (.Error ([⟨kTag, [98]⟩] ++ [⟨kMany1, [98]⟩]) : IResult Input Chain (List Input)) :=
  ⟨(claim8_verbose_chain (tag verboseE [97]) (tag verboseE [99]) [98]
      [⟨kTag, [98]⟩]).1 (by decide) ⟨[⟨kTag, [98]⟩], by decide⟩,
   (claim8_verbose_chain (tag verboseE [97]) (tag verboseE [99]) [98]
      [⟨kTag, [98]⟩]).2.1 (by decide)⟩

/-- Every entry of a byte's bit list is a binary digit. -/
theorem byteBits_lt_two (b : Nat) : ∀ x ∈ byteBits b, x < 2 := by
  intro x hx
  unfold byteBits at hx
  simp only [List.mem_map, List.mem_range] at hx
  obtain ⟨k, _, rfl⟩ := hx
  exact Nat.mod_lt _ (by decide)

/-- Every entry of a bit stream is a binary digit. -/
theorem streamBits_lt_two (l : Input) : ∀ x ∈ streamBits l, x < 2 := by
  induction l with
  | nil => intro x hx; simp [streamBits] at hx
  | cons b t ih =>
    intro x hx
    rw [streamBits, List.mem_append] at hx
    rcases hx with h | h
    · exact byteBits_lt_two b x h
    · exact ih x h

/-- Folding binary digits most significant first stays below the power
of two given by the digit count. -/
theorem bitsFold_lt (l : List Nat) (a : Nat) (h : ∀ x ∈ l, x < 2) :
    l.foldl (fun x b => 2 * x + b) a < 2 ^ l.length * (a + 1) := by
  induction l generalizing a with
  | nil => simp
  | cons b t ih =>
    have hb : b < 2 := h b (by simp)
    have ht : ∀ x ∈ t, x < 2 := fun x hx => h x (by simp [hx])
    have h1 := ih (2 * a + b) ht
    have h2 : 2 ^ t.length * (2 * a + b + 1) ≤ 2 ^ (t.length + 1) * (a + 1) := by
      have hstep : 2 * a + b + 1 ≤ 2 * (a + 1) := by omega
      calc 2 ^ t.length * (2 * a + b + 1)
          ≤ 2 ^ t.length * (2 * (a + 1)) := Nat.mul_le_mul_left _ hstep
        _ = 2 ^ (t.length + 1) * (a + 1) := by ring
    simp only [List.foldl_cons, List.length_cons]
    exact lt_of_lt_of_le h1 h2

/-- The value of a list of binary digits is below two to its length. -/
theorem bitsVal_lt (l : List Nat) (h : ∀ x ∈ l, x < 2) :
    bitsVal l < 2 ^ l.length := by
  have hb := bitsFold_lt l 0 h
  simpa [bitsVal] using hb

/-- C9: take_bits n returns Incomplete when fewer than n bits remain;
otherwise it is Done, with the cursor advanced by n bits across byte
boundaries (whole consumed bytes dropped, the bit offset reduced modulo
eight) and an unsigned value below two to the n; concretely, take_bits 3
on the single byte 0b10110010 yields the value 0b101, that is five, with
the cursor at bit offset three of the same byte, and take_bits 12 on
0xAB 0xCD yields 0xABC with the cursor at bit offset four of the second
byte. -/
theorem claim9_take_bits (bytes : Input) (off n : Nat) :
    (bytes.length * 8 - off < n →
      takeBits n (bytes, off) =
        (.Incomplete (.Size (n - (bytes.length * 8 - off))) : IResult BitInput Chain Nat)) ∧
    (n ≤ bytes.length * 8 - off →
      ∃ v, takeBits n (bytes, off) =
          (.Done (bytes.drop ((off + n) / 8), (off + n) % 8) v : IResult BitInput Chain Nat) ∧
        v < 2 ^ n) ∧
    takeBits 3 ([178], 0) = (.Done ([178], 3) 5 : IResult BitInput Chain Nat) ∧
    takeBits 12 ([171, 205], 0) = (.Done ([205], 4) 2748 : IResult BitInput Chain Nat) := by
  refine ⟨fun h => ?_, fun h => ?_, by decide, by decide⟩
  · simp only [takeBits]
    rw [if_pos h]
  · simp only [takeBits]
    rw [if_neg (Nat.not_lt.mpr h)]
    refine ⟨_, rfl, ?_⟩
    have hlen : (((streamBits bytes).drop off).take n).length ≤ n :=
      List.length_take_le n _
    have hmem : ∀ x ∈ ((streamBits bytes).drop off).take n, x < 2 := fun x hx =>
      streamBits_lt_two bytes x (List.drop_subset off _ (List.take_subset n _ hx))
    exact lt_of_lt_of_le (bitsVal_lt _ hmem) (Nat.pow_le_pow_right (by decide) hlen)

/-- Witness for C9: take_bits 20 on a single byte is Incomplete needing
twelve more bits, and take_bits 3 on that byte is Done below eight with
the cursor at bit offset three. -/
theorem claim9_take_bits_witness :
    takeBits 20 ([178], 0) = (.Incomplete (.Size 12) : IResult BitInput Chain Nat) ∧
    (∃ v, takeBits 3 ([178], 0) = (.Done ([178], 3) v : IResult BitInput Chain Nat) ∧
      v < 2 ^ 3) :=
  ⟨(claim9_take_bits [178] 0 20).1 (by decide),
   (claim9_take_bits [178] 0 3).2.1 (by decide)⟩

/-- C10: evaluation of the documented grammar at the doc-test inputs of
src/lib.rs under the spec modelled combinator semantics.  Every asserted
input ends inside the open digit class, so the Incomplete that the spec
mandates for the digit matcher at buffer end propagates through alt,
chain and many0 and the grammar returns Incomplete instead of the
asserted Done values; on the same inputs bounded by a closing
parenthesis byte the grammar does produce exactly the asserted values,
with star and slash binding tighter than plus and minus, left to right
accumulation and truncating division, so the divergence is caused only
by the streaming policy at end of input. -/
theorem claim10_expr_doc :
    exprF 9 [49, 43, 50] = .Incomplete .Unknown ∧
    exprF 9 [49, 43, 50, 42, 51, 43, 52] = .Incomplete .Unknown ∧
    exprF 9 [50, 42, 50, 47, 40, 53, 45, 49, 41, 43, 51] = .Incomplete .Unknown ∧
    exprF 9 [49, 43, 50, 41] = .Done [41] 3 ∧
    exprF 9 [49, 43, 50, 42, 51, 43, 52, 41] = .Done [41] 11 ∧
    exprF 9 [50, 42, 50, 47, 40, 53, 45, 49, 41, 43, 51, 41] = .Done [41] 4 := by
  refine ⟨by decide, by decide, by decide, by decide, by decide, by decide⟩

/-- Agreement on the Done variant reduces to equal remainders and equal
values. -/
@[simp] theorem rel2_done_done {r r2 : ι} {v v2 : α} :
    @rel2 ι ε ε2 α (IResult.Done r v) (IResult.Done r2 v2) ↔ r = r2 ∧ v = v2 :=
  Iff.rfl

/-- Agreement on the Incomplete variant reduces to equal needed
payloads. -/
@[simp] theorem rel2_inc_inc {n n2 : Needed} :
    @rel2 ι ε ε2 α (IResult.Incomplete n) (IResult.Incomplete n2) ↔ n = n2 :=
  Iff.rfl

/-- Two Error results always agree, whatever their payloads. -/
@[simp] theorem rel2_err_err {e : ε} {e2 : ε2} :
    @rel2 ι ε ε2 α (IResult.Error e) (IResult.Error e2) :=
  trivial

/-- A Done result never agrees with an Error result. -/
@[simp] theorem rel2_done_err {r : ι} {v : α} {e2 : ε2} :
    @rel2 ι ε ε2 α (IResult.Done r v) (IResult.Error e2) ↔ False :=
  Iff.rfl

/-- A Done result never agrees with an Incomplete result. -/
@[simp] theorem rel2_done_inc {r : ι} {v : α} {n2 : Needed} :
    @rel2 ι ε ε2 α (IResult.Done r v) (IResult.Incomplete n2) ↔ False :=
  Iff.rfl

/-- An Error result never agrees with a Done result. -/
@[simp] theorem rel2_err_done {e : ε} {r2 : ι} {v2 : α} :
    @rel2 ι ε ε2 α (IResult.Error e) (IResult.Done r2 v2) ↔ False :=
  Iff.rfl

/-- An Error result never agrees with an Incomplete result. -/
@[simp] theorem rel2_err_inc {e : ε} {n2 : Needed} :
    @rel2 ι ε ε2 α (IResult.Error e) (IResult.Incomplete n2) ↔ False :=
  Iff.rfl

/-- An Incomplete result never agrees with a Done result. -/
@[simp] theorem rel2_inc_done {n : Needed} {r2 : ι} {v2 : α} :
    @rel2 ι ε ε2 α (IResult.Incomplete n) (IResult.Done r2 v2) ↔ False :=
  Iff.rfl

/-- An Incomplete result never agrees with an Error result. -/
@[simp] theorem rel2_inc_err {n : Needed} {e2 : ε2} :
    @rel2 ι ε ε2 α (IResult.Incomplete n) (IResult.Error e2) ↔ False :=
  Iff.rfl

/-- Mapping the same output function preserves agreement. -/
theorem rel2_map (f : α → β) {x : IResult ι ε α} {y : IResult ι ε2 α}
    (h : rel2 x y) : rel2 (x.map f) (y.map f) := by
  cases x <;> cases y <;> simp_all [IResult.map]

/-- The tag matcher behaves identically under any two error models. -/
theorem rel2_tag (E1 : ErrM ε) (E2 : ErrM ε2) (l i : Input) :
    rel2 (tag E1 l i) (tag E2 l i) := by
  unfold tag
  split_ifs
  · exact ⟨rfl, rfl⟩
  · rfl
  · trivial

/-- The take extractor behaves identically under any two error
payloads. -/
theorem rel2_take (n : Nat) (i : Input) :
    rel2 (take n i : IResult Input ε Input) (take n i : IResult Input ε2 Input) := by
  unfold take
  split_ifs
  · exact ⟨rfl, rfl⟩
  · rfl

/-- The digit matcher behaves identically under any two error
payloads. -/
theorem rel2_digit (i : Input) :
    rel2 (digit i : IResult Input ε Input) (digit i : IResult Input ε2 Input) := by
  unfold digit
  split_ifs
  · rfl
  · exact ⟨rfl, rfl⟩

/-- The second alternative handler preserves agreement whatever the
recorded first errors are. -/
theorem rel2_altK (E1 : ErrM ε) (E2 : ErrM ε2) (i : Input) (e : ε) (e2 : ε2)
    {x : IResult Input ε σ} {y : IResult Input ε2 σ} (h : rel2 x y) :
    rel2 (altK E1 i e x) (altK E2 i e2 y) := by
  cases x <;> cases y <;> simp_all [altK]

/-- Alternation preserves agreement between the two error modes. -/
theorem rel2_alt (E1 : ErrM ε) (E2 : ErrM ε2) {p1 p2 : Input → IResult Input ε σ}
    {q1 q2 : Input → IResult Input ε2 σ} (i : Input)
    (h1 : rel2 (p1 i) (q1 i)) (h2 : rel2 (p2 i) (q2 i)) :
    rel2 (alt E1 p1 p2 i) (alt E2 q1 q2 i) := by
  unfold alt
  rcases hx : p1 i with ⟨r, v⟩ | ⟨e⟩ | ⟨n⟩ <;>
      rcases hy : q1 i with ⟨r2, v2⟩ | ⟨e2⟩ | ⟨n2⟩ <;> try simp_all
  exact rel2_altK E1 E2 i e e2 h2

/-- The pairing step of sequencing preserves agreement. -/
theorem rel2_seqK (v : α) {x : IResult Input ε β} {y : IResult Input ε2 β}
    (h : rel2 x y) : rel2 (seqK v x) (seqK v y) := by
  cases x <;> cases y <;> simp_all [seqK]

/-- Sequencing preserves agreement between the two error modes. -/
theorem rel2_seq {p1 : Input → IResult Input ε α} {p2 : Input → IResult Input ε β}
    {q1 : Input → IResult Input ε2 α} {q2 : Input → IResult Input ε2 β} (i : Input)
    (h1 : rel2 (p1 i) (q1 i)) (h2 : ∀ j, rel2 (p2 j) (q2 j)) :
    rel2 (seqP p1 p2 i) (seqP q1 q2 i) := by
  unfold seqP
  rcases hx : p1 i with ⟨r, v⟩ | ⟨e⟩ | ⟨n⟩ <;>
      rcases hy : q1 i with ⟨r2, v2⟩ | ⟨e2⟩ | ⟨n2⟩ <;> try simp_all
  exact rel2_seqK _ (h2 _)

/-- The optional combinator preserves agreement between the two error
modes. -/
theorem rel2_opt {p : Input → IResult Input ε σ} {q : Input → IResult Input ε2 σ}
    (i : Input) (h : rel2 (p i) (q i)) :
    rel2 (opt p i) (opt q i) := by
  unfold opt
  rcases hx : p i with ⟨r, v⟩ | ⟨e⟩ | ⟨n⟩ <;>
      rcases hy : q i with ⟨r2, v2⟩ | ⟨e2⟩ | ⟨n2⟩ <;> simp_all

/-- The conversion step of map_res is identical under the two error
models outside the error payload. -/
theorem rel2_mapResK (E1 : ErrM ε) (E2 : ErrM ε2) (i r : Input)
    (f : α → Option β) (v : α) :
    rel2 (mapResK E1 i r f v) (mapResK E2 i r f v) := by
  unfold mapResK
  cases f v <;> simp

/-- The map_res combinator preserves agreement between the two error
modes. -/
theorem rel2_mapRes (E1 : ErrM ε) (E2 : ErrM ε2) {p : Input → IResult Input ε α}
    {q : Input → IResult Input ε2 α} (f : α → Option β) (i : Input)
    (h : rel2 (p i) (q i)) :
    rel2 (mapRes E1 p f i) (mapRes E2 q f i) := by
  unfold mapRes
  rcases hx : p i with ⟨r, v⟩ | ⟨e⟩ | ⟨n⟩ <;>
      rcases hy : q i with ⟨r2, v2⟩ | ⟨e2⟩ | ⟨n2⟩ <;> try simp_all
  exact rel2_mapResK E1 E2 i _ f _

/-- The collection step of the repetition loop preserves agreement. -/
theorem rel2_many0K (v : σ) {x : IResult Input ε (List σ)}
    {y : IResult Input ε2 (List σ)} (h : rel2 x y) :
    rel2 (many0K v x) (many0K v y) := by
  cases x <;> cases y <;> simp_all [many0K]

/-- The many0 loop preserves agreement between the two error modes, by
induction on the fuel. -/
theorem rel2_many0Go {p : Input → IResult Input ε σ} {q : Input → IResult Input ε2 σ}
    (hpq : ∀ j, rel2 (p j) (q j)) :
    ∀ f i, rel2 (many0Go p f i) (many0Go q f i) := by
  intro f
  induction f with
  | zero => intro i; exact ⟨rfl, rfl⟩
  | succ f ih =>
    intro i
    unfold many0Go
    have h := hpq i
    rcases hx : p i with ⟨r, v⟩ | ⟨e⟩ | ⟨n⟩ <;>
        rcases hy : q i with ⟨r2, v2⟩ | ⟨e2⟩ | ⟨n2⟩ <;> try simp_all
    split <;> rename_i hl
    · exact rel2_many0K _ (ih _)
    · exact ⟨rfl, rfl⟩

/-- The many0 combinator preserves agreement between the two error
modes. -/
theorem rel2_many0 {p : Input → IResult Input ε σ} {q : Input → IResult Input ε2 σ}
    (hpq : ∀ j, rel2 (p j) (q j)) (i : Input) :
    rel2 (many0 p i) (many0 q i) :=
  rel2_many0Go hpq (i.length + 1) i

/-- The many1 combinator preserves agreement between the two error
modes. -/
theorem rel2_many1 (E1 : ErrM ε) (E2 : ErrM ε2)
    {p : Input → IResult Input ε σ} {q : Input → IResult Input ε2 σ} (i : Input)
    (hpq : ∀ j, rel2 (p j) (q j)) :
    rel2 (many1 E1 p i) (many1 E2 q i) := by
  unfold many1
  have h := hpq i
  rcases hx : p i with ⟨r, v⟩ | ⟨e⟩ | ⟨n⟩ <;>
      rcases hy : q i with ⟨r2, v2⟩ | ⟨e2⟩ | ⟨n2⟩ <;> try simp_all
  exact rel2_many0K _ (rel2_many0 hpq _)

/-- C7: for every parser of the combinator vocabulary and every input,
the run under the simple error mode and the run under the verbose error
mode have the same outcome variant, with identical remainder, value and
needed payloads outside Error: stripping the verbose chain to a single
discriminant never changes whether a parse succeeds, fails or reports
Incomplete. -/
theorem claim7_error_modes (p : P) (i : Input) :
    rel2 (runP simpleE p i) (runP verboseE p i) := by
  induction p generalizing i with
  | ptag l => exact rel2_map _ (rel2_tag simpleE verboseE l i)
  | ptake n => exact rel2_map _ (rel2_take n i)
  | pdigit => exact rel2_map _ (rel2_digit i)
  | pnum => exact rel2_map _ (rel2_mapRes simpleE verboseE bytesToInt i (rel2_digit i))
  | palt a b iha ihb => exact rel2_alt simpleE verboseE i (iha i) (ihb i)
  | pseq a b iha ihb => exact rel2_map _ (rel2_seq i (iha i) ihb)
  | pmany0 a iha => exact rel2_map _ (rel2_many0 iha i)
  | pmany1 a iha => exact rel2_map _ (rel2_many1 simpleE verboseE i iha)
  | popt a iha => exact rel2_map _ (rel2_opt i (iha i))

end Nom